import Mathlib

/-!
Verification development for the iconify-skill repository
(scripts/iconify_cli.py, scripts/build_index.py, scripts/update_bundled_data.py).

The Python sources are shallowly embedded: dictionaries become association
lists, unbounded `while` loops become fuel-indexed recursions (a result of
`none` means the loop has not terminated within the given fuel; a statement
quantified over all fuel values with result `none` proves divergence),
exceptions become `Except` values, and the SQLite layer is modelled by pure
functions over lists of rows whose behaviour was checked against SQLite 3.40
(FTS5 semantics: implicit AND between consecutive prefix terms, case folding
of both document tokens and query terms, `LIMIT 0` short-circuiting before
the MATCH string is parsed, negative LIMIT meaning unbounded).
-/

namespace Iconify

/-- Single quote character, built numerically so the file carries no literal
apostrophe inside string literals. -/
def squote : Char := Char.ofNat 39

/-- Python truthiness of an optional string (`None` and the empty string are
falsy). -/
def truthyStr : Option String → Bool
  | none => false
  | some s => s ≠ ""

/-- Key-set semantics of Python `dict.update`: keys of the left dict in order,
followed by the keys of the right dict that are not already present. -/
def listUnion (a b : List String) : List String :=
  a ++ b.filter (fun x => !(a.contains x))

/-- Python `" ".join(xs)`: elements interleaved with a single separator. -/
def pyJoin (sep : String) : List String → String
  | [] => ""
  | [x] => x
  | x :: y :: xs => x ++ sep ++ pyJoin sep (y :: xs)

/-- One raw icon entry of a collection document (`RawIconEntry` of the spec):
an optional parent reference and an optional own alias dict, modelled by its
key list.  `aliases = none` models a dict with no `"aliases"` key at all,
which Python code reads as `icon.get("aliases", {})` (a fresh dict). -/
structure IconEntry where
  parent : Option String
  aliases : Option (List String)
  deriving Repr, DecidableEq

/-- The empty dict `{}` that `icons.get(name, {})` produces for a missing
name. -/
def emptyEntry : IconEntry := ⟨none, none⟩

/-- The icon table of a collection (`data["icons"]`), an association list from icon
name to entry, in dict insertion order. -/
def IconTable := List (String × IconEntry)

instance : DecidableEq IconTable := by
  unfold IconTable; infer_instance

/-- Embedding of `icons.get(name, {})`. -/
def lookupIcon (icons : IconTable) (n : String) : IconEntry :=
  match icons.find? (fun p => p.1 = n) with
  | some p => p.2
  | none => emptyEntry

/-- Replace the entry stored under a name (in-place mutation of the value
object held by the dict). -/
def updateIcon (icons : IconTable) (n : String) (v : IconEntry) : IconTable :=
  icons.map (fun p => if p.1 = n then (n, v) else p)

/-! Embedding of `iconify_cli.resolve_aliases` (lines 296-305):

    current = icons.get(name, {})
    while "parent" in current:
        parent_name = current["parent"]
        current = icons.get(parent_name, {})
    return current

The `while` loop is fuel-indexed; `none` means the fuel ran out with the
loop still running. -/

/-- Loop body of `resolve_aliases`; continues while the current entry has a
`"parent"` key. -/
def resolveLoop (icons : IconTable) : Nat → IconEntry → Option IconEntry
  | 0, cur =>
    match cur.parent with
    | none => some cur
    | some _ => none
  | n + 1, cur =>
    match cur.parent with
    | none => some cur
    | some p => resolveLoop icons n (lookupIcon icons p)

/-- Embedding of `resolve_aliases(data, name)` restricted to the icon table
(the `aliases` top-level mapping of the document is never consulted by the
Python function). -/
def resolve_aliases (fuel : Nat) (icons : IconTable) (name : String) :
    Option IconEntry :=
  resolveLoop icons fuel (lookupIcon icons name)

/-! Embedding of the build-time alias flattening loop, identical in
`build_index.py` (lines 101-110) and `update_bundled_data.py` (lines 106-112):

    aliases = icon.get("aliases", {})
    parent = icon.get("parent")
    while parent:
        parent_icon = icons.get(parent, {})
        parent_aliases = parent_icon.get("aliases", {})
        aliases.update(parent_aliases)
        parent = parent_icon.get("parent")
    alias_str = " ".join(aliases.keys())

`aliases` is the very dict object stored in the entry of the child whenever the
child has an `"aliases"` key (`hasKey`), so the update is visible both to a
cyclic walk that reaches the child again and, after the loop, to the
surrounding icon table. -/

/-- Loop body of the flattening walk.  `child` is the icon being processed,
`hasKey` records whether `icon.get("aliases", {})` returned the stored dict
(true) or a fresh one (false), `acc` is the current contents of that dict,
and `p` the current `parent` variable.  Python truthiness: a `None` or empty
parent string ends the loop. -/
def flattenLoop (icons : IconTable) (child : String) (hasKey : Bool) :
    Nat → List String → Option String → Option (List String)
  | 0, acc, p => if truthyStr p then none else some acc
  | n + 1, acc, p =>
    match p with
    | none => some acc
    | some ps =>
      if ps = "" then some acc
      else
        let pEntry :=
          if hasKey && ps = child then
            { lookupIcon icons child with aliases := some acc }
          else lookupIcon icons ps
        flattenLoop icons child hasKey n
          (listUnion acc (pEntry.aliases.getD [])) pEntry.parent

/-- Embedding of the whole per-icon flattening step: returns the final alias
key list together with the icon table as it stands after the in-place
`dict.update` calls (the stored alias dict of the child has absorbed the chain
exactly when the child had an `"aliases"` key). -/
def flattenIconAliases (fuel : Nat) (icons : IconTable) (child : String) :
    Option (List String × IconTable) :=
  let entry := lookupIcon icons child
  let hasKey := entry.aliases.isSome
  match flattenLoop icons child hasKey fuel (entry.aliases.getD [])
      entry.parent with
  | none => none
  | some acc =>
    some (acc,
      if hasKey then updateIcon icons child { entry with aliases := some acc }
      else icons)

/-- The synthetic three-node parent cycle A→B→C→A of spec section 8. -/
def cycleIcons : IconTable :=
  [("A", ⟨some "B", none⟩), ("B", ⟨some "C", none⟩), ("C", ⟨some "A", none⟩)]

/-! Embedding of `iconify_cli.http_get` (lines 60-87).  The cache file for the
URL and the network are modelled explicitly; the fetched JSON document is a
type parameter.  The relevant Python exception classes are reified. -/

/-- Python exception classes that appear in the fetch/build paths. -/
inductive PyExc
  | urlError
  | httpError
  | keyError
  | jsonDecodeError
  | runtimeError
  | unboundLocalError
  deriving Repr, DecidableEq

/-- State of the on-disk cache entry for one URL: no file, a file that does
not parse as JSON, or a file holding a parsed document. -/
inductive CacheState (α : Type)
  | absent
  | corrupt
  | valid (doc : α)
  deriving Repr, DecidableEq

/-- Outcome of the network request: a parsed document, a connection error
(`URLError`/`HTTPError`), or a response body that fails JSON parsing. -/
inductive NetResult (α : Type)
  | ok (doc : α)
  | urlError
  | httpError
  | malformed
  deriving Repr, DecidableEq

/-- True when the network request does not yield a parsed document. -/
def netFailed {α : Type} : NetResult α → Bool
  | .ok _ => false
  | _ => true

/-- Embedding of `http_get`: returns the raised-or-returned value together
with the cache state after the call.  Control flow follows the source: a
valid cache entry is returned immediately; otherwise the network is tried
and a success is written to the cache; on network failure the code re-reads
the cache file with a bare `json.load` — for a corrupt entry that re-raises
`json.JSONDecodeError` — and only with no cache file at all raises
`RuntimeError`. -/
def http_get {α : Type} (cache : CacheState α) (net : NetResult α) :
    Except PyExc α × CacheState α :=
  match cache with
  | .valid d => (.ok d, cache)
  | _ =>
    match net with
    | .ok d => (.ok d, .valid d)
    | _ =>
      match cache with
      | .corrupt => (.error .jsonDecodeError, cache)
      | .absent => (.error .runtimeError, cache)
      | .valid d => (.ok d, cache)

/-! Embedding of `build_index.build_index` (build_index.py lines 29-164).
Fetch outcomes per collection are inputs; the SQLite tables become lists of
rows.  The per-collection `except (URLError, HTTPError, KeyError,
json.JSONDecodeError)` handler records a soft error and continues; any other
exception — in particular the `RuntimeError` that `http_get` raises on a
network failure with no cache entry — escapes to the outer
`except Exception` handler, which closes the connection without committing
and returns 1 (the whole build aborts). -/

/-- One parsed collection document: the icon table and the license title. -/
structure CollectionDoc where
  icons : IconTable
  license : String

/-- A row of the `icons` record table. -/
structure IconRow where
  pfx : String
  name : String
  full_id : String
  aliases : String
  license : String
  deriving Repr, DecidableEq

/-- A row of the `icons_fts` full-text table. -/
structure FtsRow where
  pfx : String
  name : String
  full_id : String
  tokens : String
  deriving Repr, DecidableEq

/-- Exceptions the per-collection handler of `build_index.py` line 128
catches. -/
def caughtInBuildLoop : PyExc → Bool
  | .urlError | .httpError | .keyError | .jsonDecodeError => true
  | _ => false

/-- Inner loop of the builder over the icons of one collection (lines 99-123):
flatten the aliases of each icon (threading the icon table, which the flattening
mutates in place) and emit one record row plus one full-text row per icon.
`none` propagates a non-terminating flattening walk. -/
def processIcons (fuel : Nat) (pfx lic : String) :
    List String → IconTable → Option (IconTable × List IconRow × List FtsRow)
  | [], tbl => some (tbl, [], [])
  | n :: ns, tbl =>
    match flattenIconAliases fuel tbl n with
    | none => none
    | some (al, tbl') =>
      match processIcons fuel pfx lic ns tbl' with
      | none => none
      | some (tblF, irs, frs) =>
        let fid := pfx ++ ":" ++ n
        let astr := pyJoin " " al
        some (tblF,
          ⟨pfx, n, fid, astr, lic⟩ :: irs,
          ⟨pfx, n, fid, n ++ " " ++ astr⟩ :: frs)

/-- Accumulated output of a successful build run. -/
structure BuildReport where
  iconsRows : List IconRow
  ftsRows : List FtsRow
  errors : List (String × PyExc)
  deriving Repr, DecidableEq

/-- The per-collection loop of the builder (lines 90-130), over collections
in the given order, each paired with its fetch outcome.  A caught exception
becomes a soft `(prefix, error)` entry; an uncaught one aborts the whole run
with that exception. -/
def runCollections (fuel : Nat) :
    List (String × Except PyExc CollectionDoc) →
    Option (Except PyExc BuildReport)
  | [] => some (.ok ⟨[], [], []⟩)
  | (p, out) :: rest =>
    match out with
    | .error e =>
      if caughtInBuildLoop e then
        match runCollections fuel rest with
        | none => none
        | some (.error e2) => some (.error e2)
        | some (.ok rep) =>
          some (.ok ⟨rep.iconsRows, rep.ftsRows, (p, e) :: rep.errors⟩)
      else some (.error e)
    | .ok doc =>
      match processIcons fuel p doc.license (doc.icons.map Prod.fst)
          doc.icons with
      | none => none
      | some (_, irs, frs) =>
        match runCollections fuel rest with
        | none => none
        | some (.error e2) => some (.error e2)
        | some (.ok rep) =>
          some (.ok ⟨irs ++ rep.iconsRows, frs ++ rep.ftsRows, rep.errors⟩)

/-- Insertion of one keyed element into a key-sorted list (the model of
`sorted(collections.keys())`, line 90). -/
def insertByKey {β : Type} (x : String × β) :
    List (String × β) → List (String × β)
  | [] => [x]
  | y :: ys => if x.1 < y.1 then x :: y :: ys else y :: insertByKey x ys

/-- Insertion sort by collection key. -/
def sortByKey {β : Type} : List (String × β) → List (String × β)
  | [] => []
  | x :: xs => insertByKey x (sortByKey xs)

/-- Embedding of a full run of `build_index.build_index` past the
`force`/existing-index guard: the tables are cleared, then collections are
processed in prefix-sorted order.  `some (.ok report)` is a completed build
(return value 0 with committed rows), `some (.error e)` the aborted path
(return value 1, connection closed with the transaction uncommitted), `none`
a run that never terminates. -/
def build_index (fuel : Nat)
    (colls : List (String × Except PyExc CollectionDoc)) :
    Option (Except PyExc BuildReport) :=
  runCollections fuel (sortByKey colls)

/-! Embedding of `iconify_cli.search_index` (lines 179-198) together with the
fragment of SQLite FTS5 semantics it exercises.  The FTS5 behaviour modelled
here was checked against SQLite 3.40: the default tokenizer case-folds both
document tokens and query terms; consecutive bareword prefix terms combine
by implicit AND; a MATCH string whose first character is `*` or that hits a
non-bareword character is rejected with an operational error; `LIMIT 0`
answers before the MATCH string is parsed; a negative LIMIT means no bound.
The `ORDER BY score` ranking is abstracted to table order — every property
stated below is insensitive to row order. -/

/-- Characters the default FTS5 tokenizer treats as token constituents, in the
fragment this program exercises. -/
def barewordChar (c : Char) : Bool := c.isAlphanum

/-- Python `str.lower()`, characterwise. -/
def pyLower (s : String) : String := String.mk (s.data.map Char.toLower)

/-- Split a character list at separators (characters satisfying `p`),
dropping empty pieces; `acc` is the pending token. -/
def splitDropAux (p : Char → Bool) : List Char → List Char → List String
  | [], acc => if acc.isEmpty then [] else [String.mk acc]
  | c :: cs, acc =>
    if p c then
      if acc.isEmpty then splitDropAux p cs []
      else String.mk acc :: splitDropAux p cs []
    else splitDropAux p cs (acc ++ [c])

/-- Python `s.split()` with no argument: split on whitespace runs, dropping
empty pieces. -/
def pySplit (s : String) : List String :=
  splitDropAux Char.isWhitespace s.data []

/-- Embedding of the query construction of line 196:
`"*".join(query.split()) + "*"`. -/
def buildSearchQuery (q : String) : String :=
  pyJoin "*" (pySplit q) ++ "*"

/-- Lexer for the FTS5 MATCH strings this program can produce: barewords,
each optionally closed by a `*` prefix marker, separated by whitespace or by
the `*` itself.  The pending-bareword accumulator is the second argument.
`none` models the engine rejecting the string (operational error). -/
def fts5LexAux : List Char → Option (List Char) → Option (List (String × Bool))
  | [], none => some []
  | [], some acc => some [(String.mk acc, false)]
  | c :: rest, none =>
    if barewordChar c then fts5LexAux rest (some [c])
    else if c.isWhitespace then fts5LexAux rest none
    else none
  | c :: rest, some acc =>
    if barewordChar c then fts5LexAux rest (some (acc ++ [c]))
    else if c = Char.ofNat 42 then
      (fts5LexAux rest none).map (fun ts => (String.mk acc, true) :: ts)
    else if c.isWhitespace then
      (fts5LexAux rest none).map (fun ts => (String.mk acc, false) :: ts)
    else none

/-- Parse an FTS5 MATCH string into its term list (term, is-prefix-term),
with the case folding of the engine applied to each term. -/
def fts5ParseQuery (s : String) : Option (List (String × Bool)) :=
  (fts5LexAux s.data none).map (List.map (fun tb => (pyLower tb.1, tb.2)))

/-- FTS5 document tokenization of one stored column value: case-folded
maximal bareword runs. -/
def docTokens (s : String) : List String :=
  splitDropAux (fun c => !(barewordChar c)) (pyLower s).data []

/-- Structural string prefix test (on the character lists). -/
def strIsPrefixOf (a b : String) : Bool := List.isPrefixOf a.data b.data

/-- One query term tested against one document token. -/
def termMatchesTok (t : String × Bool) (tok : String) : Bool :=
  if t.2 then strIsPrefixOf t.1 tok else t.1.data = tok.data

/-- Implicit-AND matching of a term list against the token list of a document. -/
def docMatches (terms : List (String × Bool)) (doc : List String) : Bool :=
  terms.all (fun t => doc.any (termMatchesTok t))

/-- Matching outcome of a MATCH string against a document token list
(`none` = the engine rejects the query string). -/
def ftsMatchDoc (mq : String) (doc : List String) : Option Bool :=
  (fts5ParseQuery mq).map (fun terms => docMatches terms doc)

/-- An unqualified MATCH searches every column of the FTS5 table. -/
def rowDocTokens (r : FtsRow) : List String :=
  docTokens r.pfx ++ docTokens r.name ++ docTokens r.full_id ++
    docTokens r.tokens

/-- Error raised by the SQLite driver for a rejected MATCH string. -/
inductive QueryErr
  | operationalError
  deriving Repr, DecidableEq

/-- The rows the WHERE clause of `search_index` keeps, before LIMIT. -/
def ftsFilter (terms : List (String × Bool)) (table : List FtsRow)
    (pfs : Option (List String)) : List FtsRow :=
  table.filter (fun r =>
    docMatches terms (rowDocTokens r) &&
      (match pfs with
       | none => true
       | some ps => ps.contains r.pfx))

/-- Embedding of `search_index(query, limit, prefixes)` over a model FTS
table.  `LIMIT 0` answers with no rows before the MATCH string is parsed; a
rejected MATCH string raises `sqlite3.OperationalError`; a negative limit is
passed through to SQLite, which treats it as unbounded. -/
def search_index (table : List FtsRow) (q : String) (lim : Int)
    (pfs : Option (List String)) : Except QueryErr (List FtsRow) :=
  if lim = 0 then .ok []
  else
    match fts5ParseQuery (buildSearchQuery q) with
    | none => .error .operationalError
    | some terms =>
      let rows := ftsFilter terms table pfs
      .ok (if lim < 0 then rows else rows.take lim.toNat)

/-- The unbounded result set of a query: every row the WHERE clause keeps,
no truncation.  Used to state what a negative LIMIT returns. -/
def ftsAllMatches (table : List FtsRow) (q : String)
    (pfs : Option (List String)) : Except QueryErr (List FtsRow) :=
  match fts5ParseQuery (buildSearchQuery q) with
  | none => .error .operationalError
  | some terms => .ok (ftsFilter terms table pfs)

/-! Embedding of `iconify_cli.sanitize_svg` (lines 308-317) and of the SVG
assembly inside `iconify_cli.get_svg` (lines 342-376). -/

/-- Boolean substring test on the underlying character lists. -/
def containsSub (s pat : String) : Bool :=
  decide (List.IsInfix pat.data s.data)

/-- The two concrete strings the regex `href=["\x27]http` can match, the
character class expanded. -/
def hrefDq : String := "href=\"http"

/-- Single-quote variant of the `href` pattern. -/
def hrefSq : String := "href=" ++ String.singleton squote ++ "http"

/-- Embedding of `sanitize_svg(body)`: lower-case the body once, then reject
on the `<script` substring, the `onload=` substring, or the
`href=["\x27]http` regex. -/
def sanitize_svg (body : String) : Bool :=
  let bl := pyLower body
  if containsSub bl "<script" then false
  else if containsSub bl "onload=" then false
  else if containsSub bl hrefDq || containsSub bl hrefSq then false
  else true

/-- Case-insensitive occurrence of a (lower-case) pattern in a body: some
infix of the body lower-cases to the pattern.  This is the claim-level
notion the sanitizer is checked against. -/
def ciOccurs (pat body : String) : Prop :=
  ∃ v : List Char, v <:+: body.data ∧ v.map Char.toLower = pat.data

/-- The resolved icon data `get_svg` renders: the body string and the
optional `width`/`height` fields of the document. -/
structure ResolvedIcon where
  body : String
  width : Option Nat
  height : Option Nat
  deriving Repr, DecidableEq

/-- Embedding of the SVG string assembly of `get_svg` lines 357-376: the
fixed-namespace root tag, the viewBox from the icon dimensions, the
width/height attributes from `size`, then the body — wrapped in a
`<g fill=...>` group exactly when `color` is truthy and differs from the
`currentColor` sentinel — joined by newlines and closed. -/
def buildSvg (body : String) (width height size : Nat)
    (color : Option String) : String :=
  let svg_parts : List String := [
    "<svg xmlns=\"http://www.w3.org/2000/svg\"",
    "viewBox=\"0 0 " ++ toString width ++ " " ++ toString height ++ "\"",
    "width=\"" ++ toString size ++ "\" height=\"" ++ toString size ++ "\">"]
  let mid : List String :=
    match color with
    | some c =>
      if c ≠ "" && c ≠ "currentColor" then
        ["<g fill=\"" ++ c ++ "\">", body, "</g>"]
      else [body]
    | none => [body]
  pyJoin "\n" (svg_parts ++ mid ++ ["</svg>"])

/-- Embedding of the rendering tail of `get_svg` (after the icon has been
resolved): an empty body prints a message and returns nothing, an unsafe
body is rejected with no SVG output, otherwise the assembled SVG string is
produced with dimensions defaulting to `size`. -/
def get_svg_render (icon : ResolvedIcon) (size : Nat)
    (color : Option String) : Option String :=
  if icon.body = "" then none
  else if !sanitize_svg icon.body then none
  else
    some (buildSvg icon.body (icon.width.getD size) (icon.height.getD size)
      size color)

/-! Embedding of the CLI-embedded builder `iconify_cli.build_index`
(lines 201-286).  After the guard and the table clearing, the function body
reads the local variable `collections` — in the comprehension of line 248
when `prefixes` is truthy, in the `for` statement of line 252 otherwise —
and the only assignment to `collections` in the whole function is line 248
itself, whose right-hand side performs that first read.  A Python local read
before any assignment raises `UnboundLocalError`; the unassigned state is
modelled by `none`. -/

/-- Python truthiness of the optional prefix-list argument (`None` and the
empty list are falsy). -/
def truthyList : Option (List String) → Bool
  | none => false
  | some l => !l.isEmpty

/-- Outcome of a CLI `build-index` invocation. -/
inductive CliOutcome
  | earlyReturn
  | raised (e : PyExc)
  | completed (totalIndexed : Nat)
  deriving Repr, DecidableEq

/-- Observable state of the CLI builder after the call: whether the two
DELETE statements ran, the rows inserted, and how the call ended. -/
structure CliBuildState where
  cleared : Bool
  iconsRows : List IconRow
  ftsRows : List FtsRow
  outcome : CliOutcome
  deriving Repr, DecidableEq

/-- The per-collection loop of the CLI builder (lines 252-272): fetch each
collection, skipping any that raises (`except Exception: continue`), and
insert one record row plus one full-text row per icon; aliases here are the
own alias keys of the icon only. -/
def cliProcessCollections (fetch : String → Except PyExc CollectionDoc) :
    List String → List IconRow × List FtsRow
  | [] => ([], [])
  | p :: ps =>
    let rest := cliProcessCollections fetch ps
    match fetch p with
    | .error _ => rest
    | .ok doc =>
      let rows := doc.icons.map (fun ni =>
        let fid := p ++ ":" ++ ni.1
        let astr := pyJoin " " (ni.2.aliases.getD [])
        ((⟨p, ni.1, fid, astr, doc.license⟩ : IconRow),
         (⟨p, ni.1, fid, ni.1 ++ " " ++ astr⟩ : FtsRow)))
      (rows.map Prod.fst ++ rest.1, rows.map Prod.snd ++ rest.2)

/-- Embedding of `iconify_cli.build_index(force, bundle, prefixes)`.  The
early return fires when the index file exists and `force` is false; on every
other path the tables are cleared and then the unassigned local
`collections` is read. -/
def cli_build_index (indexExists force bundle : Bool)
    (pfsArg : Option (List String))
    (fetch : String → Except PyExc CollectionDoc) : CliBuildState :=
  if indexExists && !force then ⟨false, [], [], .earlyReturn⟩
  else
    let collectionsLocal : Option (List String) := none
    match collectionsLocal with
    | none => ⟨true, [], [], .raised .unboundLocalError⟩
    | some cs =>
      let cs2 :=
        if truthyList pfsArg then
          cs.filter (fun k => (pfsArg.getD []).contains k)
        else cs
      let rows := cliProcessCollections fetch cs2
      ⟨true, rows.1, rows.2, .completed rows.1.length⟩

end Iconify

namespace Iconify

/-! ### Helper lemmas -/

/-- The flattening loop exits immediately once `parent` is `None`. -/
theorem flattenLoop_none (icons : IconTable) (c : String) (hk : Bool) :
    ∀ (n : Nat) (acc : List String),
      flattenLoop icons c hk n acc none = some acc := by
  intro n acc
  cases n <;> rfl

/-- Walking the three-node cycle from any of its nodes never leaves the
resolve loop, whatever the fuel. -/
theorem resolveLoop_cycle (n : Nat) :
    resolveLoop cycleIcons n ⟨some "B", none⟩ = none ∧
    resolveLoop cycleIcons n ⟨some "C", none⟩ = none ∧
    resolveLoop cycleIcons n ⟨some "A", none⟩ = none := by
  induction n with
  | zero => exact ⟨rfl, rfl, rfl⟩
  | succ n ih =>
    refine ⟨?_, ?_, ?_⟩
    · show resolveLoop cycleIcons n (lookupIcon cycleIcons "B") = none
      rw [(by decide : lookupIcon cycleIcons "B" = (⟨some "C", none⟩ : IconEntry))]
      exact ih.2.1
    · show resolveLoop cycleIcons n (lookupIcon cycleIcons "C") = none
      rw [(by decide : lookupIcon cycleIcons "C" = (⟨some "A", none⟩ : IconEntry))]
      exact ih.2.2
    · show resolveLoop cycleIcons n (lookupIcon cycleIcons "A") = none
      rw [(by decide : lookupIcon cycleIcons "A" = (⟨some "B", none⟩ : IconEntry))]
      exact ih.1

/-- Same for the build-time flattening loop, for every accumulator value. -/
theorem flattenLoop_cycle (n : Nat) :
    ∀ acc : List String,
      flattenLoop cycleIcons "A" false n acc (some "B") = none ∧
      flattenLoop cycleIcons "A" false n acc (some "C") = none ∧
      flattenLoop cycleIcons "A" false n acc (some "A") = none := by
  induction n with
  | zero => intro acc; exact ⟨rfl, rfl, rfl⟩
  | succ n ih =>
    intro acc
    exact ⟨(ih _).2.1, (ih _).2.2, (ih _).1⟩

/-- Reduction of `flattenIconAliases` once its loop is known to diverge. -/
theorem flattenIconAliases_none_of_loop {fuel : Nat} {icons : IconTable}
    {c : String}
    (h : flattenLoop icons c (lookupIcon icons c).aliases.isSome fuel
      ((lookupIcon icons c).aliases.getD []) (lookupIcon icons c).parent
      = none) :
    flattenIconAliases fuel icons c = none := by
  simp only [flattenIconAliases, h]

/-- C1: on the synthetic three-node parent cycle A→B→C→A, neither canonical
resolution (`resolve_aliases`) nor the build-time alias flattening
terminates — no amount of fuel makes either walk finish, so the unbounded
Python loops run forever instead of failing with a `ResolutionError` as the
spec requires. -/
theorem cycle_resolution_diverges (fuel : Nat) :
    resolve_aliases fuel cycleIcons "A" = none ∧
    flattenIconAliases fuel cycleIcons "A" = none := by
  constructor
  · show resolveLoop cycleIcons fuel (lookupIcon cycleIcons "A") = none
    rw [(by decide : lookupIcon cycleIcons "A" = (⟨some "B", none⟩ : IconEntry))]
    exact (resolveLoop_cycle fuel).1
  · exact flattenIconAliases_none_of_loop ((flattenLoop_cycle fuel []).1)


/-! ### C2: abort of the whole build on one fetch error -/

/-- C2: a network failure with no cache entry surfaces from `http_get` as
`RuntimeError`, which the per-collection handler of `build_index.py` does
not catch, so one bad collection aborts the whole build — contradicting the
claim that such an error is recorded as a soft error and the build
continues.  The contrast conjunct shows that an exception of a caught class
would indeed have been recorded as a soft error with the other two
collections indexed fully. -/
theorem build_index_aborts_on_uncached_fetch_error :
    (http_get (CacheState.absent : CacheState CollectionDoc)
        NetResult.urlError).1 = .error .runtimeError
  ∧ build_index 5
      [("alpha", .ok ⟨[("a1", ⟨none, none⟩)], "MIT"⟩),
       ("beta", (http_get (CacheState.absent : CacheState CollectionDoc)
          NetResult.urlError).1),
       ("gamma", .ok ⟨[("g1", ⟨none, some ["gg"]⟩)], "X"⟩)]
      = some (.error .runtimeError)
  ∧ build_index 5
      [("alpha", .ok ⟨[("a1", ⟨none, none⟩)], "MIT"⟩),
       ("beta", .error .jsonDecodeError),
       ("gamma", .ok ⟨[("g1", ⟨none, some ["gg"]⟩)], "X"⟩)]
      = some (.ok ⟨
          [⟨"alpha", "a1", "alpha:a1", "", "MIT"⟩,
           ⟨"gamma", "g1", "gamma:g1", "gg", "X"⟩],
          [⟨"alpha", "a1", "alpha:a1", "a1 "⟩,
           ⟨"gamma", "g1", "gamma:g1", "g1 gg"⟩],
          [("beta", .jsonDecodeError)]⟩) := by
  refine ⟨rfl, by with_unfolding_all rfl, by with_unfolding_all rfl⟩

/-! ### C9: the CLI-embedded builder can never complete -/

/-- C9: for every CLI `build-index` call, either the existing-index guard
fires (nothing cleared, nothing inserted), or the tables are cleared and
the read of the never-assigned local `collections` raises
`UnboundLocalError` before any insertion; no combination of arguments
reaches a completed build. -/
theorem cli_build_index_never_completes (e f b : Bool)
    (ps : Option (List String))
    (fetch : String → Except PyExc CollectionDoc) :
    cli_build_index e f b ps fetch =
      (if e && !f then ⟨false, [], [], .earlyReturn⟩
       else ⟨true, [], [], .raised .unboundLocalError⟩)
  ∧ ∀ n, (cli_build_index e f b ps fetch).outcome ≠ .completed n := by
  constructor
  · unfold cli_build_index
    cases e && !f <;> rfl
  · intro n
    unfold cli_build_index
    cases e && !f <;> simp


/-! ### C5: stale-cache fallback of http_get -/

/-- C5 counterexample: a cache entry can exist (as a file) yet not parse;
on network failure the fallback `json.load` then re-raises instead of
returning a document, so "a cache entry exists" does not imply "the cached
document is returned". -/
theorem http_get_corrupt_cache_counterexample :
    (http_get (CacheState.corrupt : CacheState String)
        NetResult.urlError).1 = .error .jsonDecodeError
  ∧ ∀ d : String,
      (http_get (CacheState.corrupt : CacheState String)
          NetResult.urlError).1 ≠ .ok d := by
  refine ⟨rfl, ?_⟩
  intro d h
  exact nomatch h

/-- C5 amended: on network failure a parseable cache entry is returned, a
corrupt one re-raises the parse error instead, and the `RuntimeError` fetch
failure happens exactly when no cache entry exists at all. -/
theorem http_get_stale_cache_amended {α : Type} (cache : CacheState α)
    (net : NetResult α) (hfail : netFailed net = true) :
    (∀ d, cache = .valid d → (http_get cache net).1 = .ok d)
  ∧ (cache = .corrupt → (http_get cache net).1 = .error .jsonDecodeError)
  ∧ ((http_get cache net).1 = .error .runtimeError ↔ cache = .absent) := by
  cases net <;> cases cache <;> simp_all [netFailed, http_get]

/-- Concrete instance of the amended contract. -/
theorem http_get_stale_cache_amended_witness :
    (http_get (CacheState.valid "doc") (NetResult.urlError : NetResult String)).1
      = .ok "doc" :=
  (http_get_stale_cache_amended (CacheState.valid "doc") NetResult.urlError rfl).1
    "doc" rfl

/-! ### C10: in-place mutation by the alias-flattening loop -/

/-- Auxiliary: `find?` after an in-place value replacement. -/
theorem find?_updateIcon (icons : IconTable) (c : String) (v : IconEntry) :
    (updateIcon icons c v).find? (fun q => q.1 = c)
      = (icons.find? (fun q => q.1 = c)).map (fun _ => (c, v)) := by
  induction icons with
  | nil => rfl
  | cons hd tl ih =>
    simp only [updateIcon, List.map_cons] at ih ⊢
    by_cases h : hd.1 = c
    · rw [if_pos h]
      rw [List.find?_cons_of_pos _ (by simp), List.find?_cons_of_pos _ (by simp [h])]
      rfl
    · rw [if_neg h]
      rw [List.find?_cons_of_neg _ (by simp [h]), List.find?_cons_of_neg _ (by simp [h])]
      exact ih

/-- Lookup of the updated entry. -/
theorem lookupIcon_updateIcon_self (icons : IconTable) (c : String)
    (v : IconEntry) (hmem : (icons.find? (fun q => q.1 = c)).isSome) :
    lookupIcon (updateIcon icons c v) c = v := by
  unfold lookupIcon
  rw [find?_updateIcon]
  cases hfind : icons.find? (fun q => q.1 = c) with
  | none => rw [hfind] at hmem; exact absurd hmem (by simp)
  | some x => rfl

/-- Membership in the dict-update key union. -/
theorem mem_listUnion_right (A B : List String) (b : String)
    (hb : b ∈ B) (hnb : b ∉ A) : b ∈ listUnion A B := by
  unfold listUnion
  refine List.mem_append_right _ ?_
  refine List.mem_filter.mpr ⟨hb, ?_⟩
  simp [List.contains, hnb]

/-- C10 amended: when the processed icon has its own aliases dict and a
terminal parent, flattening returns the union and leaves the icon table
with the stored alias set of the child replaced by that union; if the
parent contributes an alias the child did not already have, the table has
really changed in place. -/
theorem flatten_absorbs_and_mutates (icons : IconTable) (c p : String)
    (A B : List String) (fuel : Nat)
    (hc : lookupIcon icons c = ⟨some p, some A⟩)
    (hp : lookupIcon icons p = ⟨none, some B⟩)
    (hpe : p ≠ "") (hpc : p ≠ c) (hfuel : 1 ≤ fuel) :
    flattenIconAliases fuel icons c
      = some (listUnion A B,
          updateIcon icons c ⟨some p, some (listUnion A B)⟩)
  ∧ lookupIcon (updateIcon icons c ⟨some p, some (listUnion A B)⟩) c
      = ⟨some p, some (listUnion A B)⟩
  ∧ (∀ b, b ∈ B → b ∉ A →
      updateIcon icons c ⟨some p, some (listUnion A B)⟩ ≠ icons) := by
  obtain ⟨k, rfl⟩ : ∃ k, fuel = k + 1 := ⟨fuel - 1, by omega⟩
  have hmem : (icons.find? (fun q => q.1 = c)).isSome := by
    unfold lookupIcon at hc
    cases hfind : icons.find? (fun q => q.1 = c) with
    | none => rw [hfind] at hc; exact absurd hc (by simp [emptyEntry])
    | some x => simp
  have hloop : flattenLoop icons c true (k + 1) A (some p)
      = some (listUnion A B) := by
    simp only [flattenLoop]
    rw [if_neg hpe]
    have hcond : (true && decide (p = c)) = false := by simp [hpc]
    simp only [hcond, if_false, Bool.false_eq_true, hp]
    exact flattenLoop_none icons c true k (listUnion A B)
  have hlook := lookupIcon_updateIcon_self icons c
    ⟨some p, some (listUnion A B)⟩ hmem
  refine ⟨?_, hlook, ?_⟩
  · simp only [flattenIconAliases, hc, Option.isSome_some, Option.getD_some,
      hloop, if_true]
  · intro b hb hnb heq
    have h2 : lookupIcon icons c = ⟨some p, some (listUnion A B)⟩ := by
      rw [← heq]
      exact hlook
    rw [hc] at h2
    have h3 : A = listUnion A B := by
      injection h2 with h2a h2b
      exact Option.some_injective _ h2b
    have h4 : b ∈ listUnion A B := mem_listUnion_right A B b hb hnb
    rw [← h3] at h4
    exact hnb h4

/-- Concrete instance: a child with own alias `x` and a parent alias `y`
absorbs `y` into its stored alias set, changing the source table. -/
theorem flatten_absorbs_and_mutates_witness :
    flattenIconAliases 2
      [("child", ⟨some "par", some ["x"]⟩), ("par", ⟨none, some ["y"]⟩)]
      "child"
      = some (listUnion ["x"] ["y"],
          updateIcon
            [("child", ⟨some "par", some ["x"]⟩), ("par", ⟨none, some ["y"]⟩)]
            "child" ⟨some "par", some (listUnion ["x"] ["y"])⟩)
  ∧ updateIcon
      [("child", ⟨some "par", some ["x"]⟩), ("par", ⟨none, some ["y"]⟩)]
      "child" ⟨some "par", some (listUnion ["x"] ["y"])⟩
      ≠ [("child", ⟨some "par", some ["x"]⟩), ("par", ⟨none, some ["y"]⟩)] := by
  have h := flatten_absorbs_and_mutates
    [("child", ⟨some "par", some ["x"]⟩), ("par", ⟨none, some ["y"]⟩)]
    "child" "par" ["x"] ["y"] 2
    (by decide) (by decide) (by decide) (by decide) (by decide)
  exact ⟨h.1, h.2.2 "y" (by decide) (by decide)⟩

/-- C10 counterexample: an icon whose entry has a parent with aliases but
no own aliases key — `icon.get` hands the loop a fresh dict, so the
flattening succeeds yet the source table comes back unchanged. -/
theorem flatten_without_alias_key_counterexample :
    flattenIconAliases 5
      [("child", ⟨some "par", none⟩), ("par", ⟨none, some ["y"]⟩)] "child"
      = some (["y"],
          [("child", ⟨some "par", none⟩), ("par", ⟨none, some ["y"]⟩)]) := rfl


/-! ### C6: the sanitizer denylist -/

/-- An infix of a lower-cased list is the lower-casing of an infix. -/
theorem infix_map_toLower_iff (pat l : List Char) :
    pat <:+: l.map Char.toLower ↔
      ∃ v : List Char, v <:+: l ∧ v.map Char.toLower = pat := by
  constructor
  · rintro ⟨s, t, hst⟩
    rcases List.map_eq_append_iff.mp hst.symm with ⟨u, w, hl, hu, hw⟩
    rcases List.map_eq_append_iff.mp hu with ⟨u1, u2, hu12, h1, h2⟩
    refine ⟨u2, ⟨u1, w, ?_⟩, h2⟩
    rw [hl, hu12]
  · rintro ⟨v, hv, hmap⟩
    rw [← hmap]
    exact hv.map Char.toLower

/-- The Boolean substring test on the lowered body decides case-insensitive
occurrence, for patterns that are already lower case. -/
theorem containsSub_lower_iff (body pat : String) :
    (containsSub (pyLower body) pat = true ↔ ciOccurs pat body) := by
  unfold containsSub pyLower ciOccurs
  rw [decide_eq_true_iff]
  show pat.data <:+: body.data.map Char.toLower ↔ _
  rw [infix_map_toLower_iff]

/-- C6: the sanitizer accepts exactly the bodies with no case-insensitive
occurrence of the three denylist patterns (`<script`, `onload=`, and
`href=` followed by a quote and `http`), and a rejected body yields no
assembled SVG output. -/
theorem sanitize_gate_characterization (body : String) (w h : Option Nat)
    (size : Nat) (color : Option String) :
    (sanitize_svg body = true ↔
      ¬(ciOccurs "<script" body ∨ ciOccurs "onload=" body ∨
        ciOccurs hrefDq body ∨ ciOccurs hrefSq body))
  ∧ (sanitize_svg body = true ∨
      get_svg_render ⟨body, w, h⟩ size color = none) := by
  have hs := containsSub_lower_iff body "<script"
  have ho := containsSub_lower_iff body "onload="
  have hd := containsSub_lower_iff body hrefDq
  have hq := containsSub_lower_iff body hrefSq
  constructor
  · rw [← hs, ← ho, ← hd, ← hq]
    simp only [sanitize_svg]
    cases containsSub (pyLower body) "<script" <;>
      cases containsSub (pyLower body) "onload=" <;>
        cases containsSub (pyLower body) hrefDq <;>
          cases containsSub (pyLower body) hrefSq <;> simp
  · cases hsan : sanitize_svg body
    · right
      by_cases hb : body = "" <;> simp [get_svg_render, hb, hsan]
    · left; rfl


/-! ### C7: the assembled SVG string -/

/-- A substring of the left part is a substring of the concatenation. -/
theorem containsSub_append_left (s t pat : String)
    (hsub : containsSub s pat = true) : containsSub (s ++ t) pat = true := by
  unfold containsSub at hsub ⊢
  rw [decide_eq_true_iff] at hsub ⊢
  rw [String.data_append]
  exact hsub.trans (List.prefix_append s.data t.data).isInfix

/-- A substring of the right part is a substring of the concatenation. -/
theorem containsSub_append_right (s t pat : String)
    (hsub : containsSub t pat = true) : containsSub (s ++ t) pat = true := by
  unfold containsSub at hsub ⊢
  rw [decide_eq_true_iff] at hsub ⊢
  rw [String.data_append]
  exact hsub.trans (List.suffix_append s.data t.data).isInfix

/-- Anything a joined element contains, the join contains. -/
theorem pyJoin_containsSub (sep x : String) :
    ∀ (l : List String) (y : String), y ∈ l → containsSub y x = true →
      containsSub (pyJoin sep l) x = true := by
  intro l
  induction l with
  | nil => intro y hy _; exact absurd hy (List.not_mem_nil y)
  | cons hd tl ih =>
    intro y hy hxy
    rcases List.mem_cons.mp hy with h | h
    · subst h
      cases tl with
      | nil => exact hxy
      | cons a as =>
        exact containsSub_append_left _ _ _ (containsSub_append_left _ _ _ hxy)
    · cases tl with
      | nil => exact absurd h (List.not_mem_nil y)
      | cons a as =>
        exact containsSub_append_right _ _ _ (ih y h hxy)

/-- Every string contains itself. -/
theorem containsSub_self (s : String) : containsSub s s = true := by
  unfold containsSub
  exact decide_eq_true (List.infix_refl s.data)

/-- C7: the assembled SVG carries the fixed namespace declaration, a
viewBox built from the icon dimensions, width and height attributes both
set to `size`, and the body verbatim; the `<g fill>` wrapper is emitted
exactly when a truthy color other than the `currentColor` sentinel is
supplied; the whole output is the stated deterministic function of the
inputs. -/
theorem get_svg_assembly (body : String) (w h size : Nat)
    (color : Option String) :
    containsSub (buildSvg body w h size color)
      "xmlns=\"http://www.w3.org/2000/svg\"" = true
  ∧ containsSub (buildSvg body w h size color)
      ("viewBox=\"0 0 " ++ toString w ++ " " ++ toString h ++ "\"") = true
  ∧ containsSub (buildSvg body w h size color)
      ("width=\"" ++ toString size ++ "\" height=\"" ++ toString size ++ "\">")
      = true
  ∧ containsSub (buildSvg body w h size color) body = true
  ∧ buildSvg body w h size color =
      "<svg xmlns=\"http://www.w3.org/2000/svg\"" ++ "\n" ++
      ("viewBox=\"0 0 " ++ toString w ++ " " ++ toString h ++ "\"") ++ "\n" ++
      ("width=\"" ++ toString size ++ "\" height=\"" ++ toString size ++ "\">")
      ++ "\n" ++
      (match color with
       | some c =>
         if c ≠ "" && c ≠ "currentColor" then
           ("<g fill=\"" ++ c ++ "\">") ++ "\n" ++ body ++ "\n" ++ "</g>"
         else body
       | none => body) ++ "\n" ++ "</svg>" := by
  unfold buildSvg
  cases color with
  | none =>
    refine ⟨?_, ?_, ?_, ?_, ?_⟩
    · exact pyJoin_containsSub "\n" _ _
        "<svg xmlns=\"http://www.w3.org/2000/svg\"" (by simp) (by decide)
    · exact pyJoin_containsSub "\n" _ _
        ("viewBox=\"0 0 " ++ toString w ++ " " ++ toString h ++ "\"")
        (by simp) (containsSub_self _)
    · exact pyJoin_containsSub "\n" _ _
        ("width=\"" ++ toString size ++ "\" height=\"" ++ toString size
          ++ "\">") (by simp) (containsSub_self _)
    · exact pyJoin_containsSub "\n" _ _ body (by simp) (containsSub_self _)
    · simp [pyJoin, String.append_assoc]
  | some c =>
    by_cases hc1 : c = ""
    · refine ⟨?_, ?_, ?_, ?_, ?_⟩
      · exact pyJoin_containsSub "\n" _ _
          "<svg xmlns=\"http://www.w3.org/2000/svg\"" (by simp [hc1])
          (by decide)
      · exact pyJoin_containsSub "\n" _ _
          ("viewBox=\"0 0 " ++ toString w ++ " " ++ toString h ++ "\"")
          (by simp [hc1]) (containsSub_self _)
      · exact pyJoin_containsSub "\n" _ _
          ("width=\"" ++ toString size ++ "\" height=\"" ++ toString size
            ++ "\">") (by simp [hc1]) (containsSub_self _)
      · exact pyJoin_containsSub "\n" _ _ body (by simp [hc1])
          (containsSub_self _)
      · simp [hc1, pyJoin, String.append_assoc]
    · by_cases hc2 : c = "currentColor"
      · refine ⟨?_, ?_, ?_, ?_, ?_⟩
        · exact pyJoin_containsSub "\n" _ _
            "<svg xmlns=\"http://www.w3.org/2000/svg\"" (by simp [hc2])
            (by decide)
        · exact pyJoin_containsSub "\n" _ _
            ("viewBox=\"0 0 " ++ toString w ++ " " ++ toString h ++ "\"")
            (by simp [hc2]) (containsSub_self _)
        · exact pyJoin_containsSub "\n" _ _
            ("width=\"" ++ toString size ++ "\" height=\"" ++ toString size
              ++ "\">") (by simp [hc2]) (containsSub_self _)
        · exact pyJoin_containsSub "\n" _ _ body (by simp [hc2])
            (containsSub_self _)
        · simp [hc2, pyJoin, String.append_assoc]
      · refine ⟨?_, ?_, ?_, ?_, ?_⟩
        · exact pyJoin_containsSub "\n" _ _
            "<svg xmlns=\"http://www.w3.org/2000/svg\"" (by simp [hc1, hc2])
            (by decide)
        · exact pyJoin_containsSub "\n" _ _
            ("viewBox=\"0 0 " ++ toString w ++ " " ++ toString h ++ "\"")
            (by simp [hc1, hc2]) (containsSub_self _)
        · exact pyJoin_containsSub "\n" _ _
            ("width=\"" ++ toString size ++ "\" height=\"" ++ toString size
              ++ "\">") (by simp [hc1, hc2]) (containsSub_self _)
        · exact pyJoin_containsSub "\n" _ _ body (by simp [hc1, hc2])
            (containsSub_self _)
        · simp [hc1, hc2, pyJoin, String.append_assoc]


/-! ### C4: per-token prefix semantics of the constructed MATCH string -/

/-- Every token the dropping splitter produces is a nonempty string. -/
theorem pySplit_tokens_ne_empty (p : Char → Bool) : ∀ (cs acc : List Char),
    ∀ t ∈ splitDropAux p cs acc, t ≠ "" := by
  intro cs
  induction cs with
  | nil =>
    intro acc t ht
    by_cases ha : acc.isEmpty
    · simp [splitDropAux, ha] at ht
    · simp only [splitDropAux, if_neg ha, List.mem_singleton] at ht
      subst ht
      intro hemp
      have hd := congrArg String.data hemp
      simp at hd
      exact ha (by simp [hd])
  | cons c cs ih =>
    intro acc t ht
    simp only [splitDropAux] at ht
    by_cases hw : p c
    · rw [if_pos hw] at ht
      by_cases ha : acc.isEmpty
      · rw [if_pos ha] at ht
        exact ih [] t ht
      · rw [if_neg ha] at ht
        rcases List.mem_cons.mp ht with h | h
        · subst h
          intro hemp
          have hd := congrArg String.data hemp
          simp at hd
          exact ha (by simp [hd])
        · exact ih [] t h
    · rw [if_neg hw] at ht
      exact ih (acc ++ [c]) t ht

/-- Lexing a bareword run that ends at a `*`, with a pending accumulator. -/
theorem fts5LexAux_token (cs : List Char) :
    ∀ (acc rest : List Char),
      (∀ ch ∈ cs, barewordChar ch = true) →
      fts5LexAux (cs ++ Char.ofNat 42 :: rest) (some acc)
        = (fts5LexAux rest none).map
            (fun ts => (String.mk (acc ++ cs), true) :: ts) := by
  induction cs with
  | nil =>
    intro acc rest _
    show fts5LexAux (Char.ofNat 42 :: rest) (some acc) = _
    have hbw : barewordChar (Char.ofNat 42) = false := by decide
    simp [fts5LexAux, hbw]
  | cons c cs ih =>
    intro acc rest hcs
    have hc : barewordChar c = true := hcs c (List.mem_cons_self c cs)
    show fts5LexAux (c :: (cs ++ Char.ofNat 42 :: rest)) (some acc) = _
    rw [show fts5LexAux (c :: (cs ++ Char.ofNat 42 :: rest)) (some acc)
        = fts5LexAux (cs ++ Char.ofNat 42 :: rest) (some (acc ++ [c])) from by
      simp [fts5LexAux, hc]]
    rw [ih (acc ++ [c]) rest (fun ch hch => hcs ch (List.mem_cons_of_mem c hch))]
    simp

/-- Lexing a nonempty bareword token from the separator-free start state. -/
theorem fts5LexAux_token_start (cs : List Char) (rest : List Char)
    (hcs : ∀ ch ∈ cs, barewordChar ch = true) (hne : cs ≠ []) :
    fts5LexAux (cs ++ Char.ofNat 42 :: rest) none
      = (fts5LexAux rest none).map
          (fun ts => (String.mk cs, true) :: ts) := by
  cases cs with
  | nil => exact absurd rfl hne
  | cons c cs =>
    have hc : barewordChar c = true := hcs c (List.mem_cons_self c cs)
    show fts5LexAux (c :: (cs ++ Char.ofNat 42 :: rest)) none = _
    rw [show fts5LexAux (c :: (cs ++ Char.ofNat 42 :: rest)) none
        = fts5LexAux (cs ++ Char.ofNat 42 :: rest) (some [c]) from by
      simp [fts5LexAux, hc]]
    rw [fts5LexAux_token cs [c] rest
      (fun ch hch => hcs ch (List.mem_cons_of_mem c hch))]
    simp

/-- The whole joined-and-starred MATCH string lexes to one prefix term per
original token. -/
theorem fts5LexAux_join (ts : List String)
    (hts : ∀ t ∈ ts, t ≠ "" ∧ ∀ ch ∈ t.data, barewordChar ch = true)
    (hne : ts ≠ []) :
    fts5LexAux ((pyJoin "*" ts ++ "*").data) none
      = some (ts.map (fun t => (t, true))) := by
  induction ts with
  | nil => exact absurd rfl hne
  | cons t ts ih =>
    have ht := hts t (List.mem_cons_self t ts)
    have htne : t.data ≠ [] := by
      intro hd
      exact ht.1 (by cases t; simp_all)
    cases ts with
    | nil =>
      have hdata : ((pyJoin "*" [t] ++ "*").data)
          = t.data ++ Char.ofNat 42 :: [] := by
        simp [pyJoin, String.data_append]
      rw [hdata, fts5LexAux_token_start t.data [] ht.2 htne]
      rfl
    | cons t2 ts2 =>
      have hdata : ((pyJoin "*" (t :: t2 :: ts2) ++ "*").data)
          = t.data ++ Char.ofNat 42 :: ((pyJoin "*" (t2 :: ts2) ++ "*").data) := by
        show ((t ++ "*" ++ pyJoin "*" (t2 :: ts2)) ++ "*").data = _
        simp [String.data_append]
      rw [hdata, fts5LexAux_token_start t.data _ ht.2 htne]
      rw [ih (fun u hu => hts u (List.mem_cons_of_mem t hu)) (by simp)]
      simp

/-- C4: the ranked-path query construction is tokenization on whitespace
with a wildcard suffix on every token, and FTS5 reads the resulting MATCH
string as an implicit AND of independent prefix terms: a document matches
exactly when every query token is a prefix of some document token (after
the case folding the engine applies). -/
theorem search_query_prefix_semantics (q : String) (doc : List String)
    (halpha : ∀ t ∈ pySplit q, ∀ ch ∈ t.data, barewordChar ch = true)
    (hne : pySplit q ≠ []) :
    fts5ParseQuery (buildSearchQuery q)
      = some ((pySplit q).map (fun t => (pyLower t, true)))
  ∧ (ftsMatchDoc (buildSearchQuery q) doc = some true ↔
      ∀ t ∈ pySplit q, ∃ tok ∈ doc, strIsPrefixOf (pyLower t) tok = true) := by
  have hts : ∀ t ∈ pySplit q, t ≠ "" ∧ ∀ ch ∈ t.data, barewordChar ch = true := by
    intro t ht
    exact ⟨pySplit_tokens_ne_empty Char.isWhitespace q.data [] t ht,
      halpha t ht⟩
  have hparse : fts5ParseQuery (buildSearchQuery q)
      = some ((pySplit q).map (fun t => (pyLower t, true))) := by
    unfold fts5ParseQuery buildSearchQuery
    rw [fts5LexAux_join (pySplit q) hts hne]
    simp [List.map_map]
  refine ⟨hparse, ?_⟩
  unfold ftsMatchDoc
  rw [hparse]
  show some (docMatches _ doc) = some true ↔ _
  rw [Option.some_inj]
  unfold docMatches
  rw [List.all_eq_true]
  constructor
  · intro hall t ht
    have := hall (pyLower t, true)
      (List.mem_map_of_mem (fun t => (pyLower t, true)) ht)
    rcases List.any_eq_true.mp this with ⟨tok, htok, hmatch⟩
    exact ⟨tok, htok, hmatch⟩
  · intro hall term hterm
    rcases List.mem_map.mp hterm with ⟨t, ht, rfl⟩
    rcases hall t ht with ⟨tok, htok, hpre⟩
    exact List.any_eq_true.mpr ⟨tok, htok, hpre⟩

/-- Concrete instance of the C4 semantics at the example query of the spec. -/
theorem search_query_prefix_semantics_witness :
    fts5ParseQuery (buildSearchQuery "home settings")
      = some [("home", true), ("settings", true)]
  ∧ (ftsMatchDoc (buildSearchQuery "home settings")
      ["homerun", "rotated", "settingsx"] = some true) := by
  have h := search_query_prefix_semantics "home settings"
    ["homerun", "rotated", "settingsx"] (by decide) (by decide)
  refine ⟨h.1.trans (by decide), ?_⟩
  refine h.2.mpr ?_
  decide


/-! ### C8: limit and empty-query behaviour of search -/

/-- The empty query builds the MATCH string `*`, which the engine rejects. -/
theorem fts5ParseQuery_empty_query :
    fts5ParseQuery (buildSearchQuery "") = none := rfl

/-- C8 amended: `limit = 0` short-circuits to an empty result for every
query; a negative limit is passed through to SQLite and means unbounded, so
the full match set is returned; the empty query builds the MATCH string
`*`, which the engine rejects with an operational error for every nonzero
limit. -/
theorem search_index_limit_amended (table : List FtsRow) (q : String)
    (pfs : Option (List String)) (k : Nat) :
    search_index table q 0 pfs = .ok []
  ∧ search_index table q (Int.negSucc k) pfs = ftsAllMatches table q pfs
  ∧ search_index table "" (Int.negSucc k) pfs = .error .operationalError
  ∧ search_index table "" (Int.ofNat (k + 1)) pfs
      = .error .operationalError := by
  refine ⟨by simp [search_index], ?_, ?_, ?_⟩
  · unfold search_index ftsAllMatches
    rw [if_neg (by simp)]
    cases hparse : fts5ParseQuery (buildSearchQuery q) with
    | none => rfl
    | some terms => simp [Int.negSucc_lt_zero]
  · unfold search_index
    rw [if_neg (by simp), fts5ParseQuery_empty_query]
  · unfold search_index
    rw [if_neg (show ¬Int.ofNat (k + 1) = 0 from
      Int.ne_of_gt (Int.ofNat_succ_pos k)), fts5ParseQuery_empty_query]

/-- C8 counterexample: with a negative limit the query is not answered by
an empty sequence — SQLite treats the negative LIMIT as unbounded and every
matching row comes back. -/
theorem search_index_negative_limit_counterexample :
    search_index [⟨"mdi", "home", "mdi:home", "home house"⟩] "home" (-1) none
      = .ok [⟨"mdi", "home", "mdi:home", "home house"⟩]
  ∧ search_index [⟨"mdi", "home", "mdi:home", "home house"⟩] "home" (-1) none
      ≠ .ok [] := by
  have h1 : search_index [⟨"mdi", "home", "mdi:home", "home house"⟩]
      "home" (-1) none
      = .ok [⟨"mdi", "home", "mdi:home", "home house"⟩] := by
    with_unfolding_all rfl
  refine ⟨h1, ?_⟩
  rw [h1]
  intro hcontra
  injection hcontra with hlist
  exact List.noConfusion hlist


/-! ### C3: record table and full-text table stay in lock step -/

/-- Spec of the inner builder loop: the emitted record rows and full-text
rows carry exactly the icon names of the collection, in order, with
`full_id = prefix ++ ":" ++ name`. -/
theorem processIcons_spec (fuel : Nat) (p lic : String) :
    ∀ (ns : List String) (tbl tblF : IconTable) (irs : List IconRow)
      (frs : List FtsRow),
      processIcons fuel p lic ns tbl = some (tblF, irs, frs) →
      irs.map (fun r => (r.pfx, r.name, r.full_id))
        = ns.map (fun n => (p, n, p ++ ":" ++ n))
      ∧ frs.map (fun r => (r.pfx, r.name, r.full_id))
        = ns.map (fun n => (p, n, p ++ ":" ++ n)) := by
  intro ns
  induction ns with
  | nil =>
    intro tbl tblF irs frs h
    simp only [processIcons, Option.some_inj, Prod.mk.injEq] at h
    obtain ⟨-, h2, h3⟩ := h
    subst h2
    subst h3
    exact ⟨rfl, rfl⟩
  | cons n ns ih =>
    intro tbl tblF irs frs h
    simp only [processIcons] at h
    cases hflat : flattenIconAliases fuel tbl n with
    | none => rw [hflat] at h; exact absurd h (by simp)
    | some pr =>
      obtain ⟨al, tbl'⟩ := pr
      rw [hflat] at h
      dsimp only at h
      cases hrec : processIcons fuel p lic ns tbl' with
      | none => rw [hrec] at h; exact absurd h (by simp)
      | some res =>
        obtain ⟨t2, irs2, frs2⟩ := res
        rw [hrec] at h
        dsimp only at h
        simp only [Option.some_inj, Prod.mk.injEq] at h
        obtain ⟨-, h2, h3⟩ := h
        subst h2
        subst h3
        obtain ⟨ih1, ih2⟩ := ih tbl' t2 irs2 frs2 hrec
        constructor <;> simp [ih1, ih2]

/-- Member-level consequences of `processIcons_spec`. -/
theorem processIcons_row_facts (fuel : Nat) (p lic : String)
    (ns : List String) (tbl tblF : IconTable) (irs : List IconRow)
    (frs : List FtsRow)
    (h : processIcons fuel p lic ns tbl = some (tblF, irs, frs)) :
    ∀ r ∈ irs, r.pfx = p ∧ r.full_id = p ++ ":" ++ r.name := by
  intro r hr
  have h1 := (processIcons_spec fuel p lic ns tbl tblF irs frs h).1
  have hmem : (r.pfx, r.name, r.full_id)
      ∈ ns.map (fun n => (p, n, p ++ ":" ++ n)) := by
    rw [← h1]
    exact List.mem_map_of_mem _ hr
  rcases List.mem_map.mp hmem with ⟨n, _, heq⟩
  have ha := congrArg Prod.fst heq
  have hb := congrArg (fun t : String × String × String => t.2.1) heq
  have hc := congrArg (fun t : String × String × String => t.2.2) heq
  simp at ha hb hc
  refine ⟨ha.symm, ?_⟩
  rw [← hc, hb]

/-- Projection of `processIcons_spec` to the full-id column. -/
theorem processIcons_fullIds (fuel : Nat) (p lic : String)
    (ns : List String) (tbl tblF : IconTable) (irs : List IconRow)
    (frs : List FtsRow)
    (h : processIcons fuel p lic ns tbl = some (tblF, irs, frs)) :
    irs.map (fun r => r.full_id) = ns.map (fun n => p ++ ":" ++ n) := by
  have h1 := (processIcons_spec fuel p lic ns tbl tblF irs frs h).1
  have h2 := congrArg (List.map (fun t : String × String × String => t.2.2)) h1
  simpa [List.map_map, Function.comp] using h2

/-- Strings with no colon are recovered by `takeWhile` from the composed
full id. -/
theorem takeWhile_no_colon (xs ys : List Char)
    (hxs : ∀ ch ∈ xs, ¬ch = ':') :
    List.takeWhile (fun ch => ch ≠ ':') (xs ++ ':' :: ys) = xs := by
  induction xs with
  | nil => simp [List.takeWhile_cons]
  | cons x xs ih =>
    have hx := hxs x (List.mem_cons_self x xs)
    simp only [List.cons_append, List.takeWhile_cons]
    rw [if_pos (by simp [hx]),
      ih (fun ch hch => hxs ch (List.mem_cons_of_mem x hch))]

/-- Appending a name after `prefix ++ ":"` is injective in the name. -/
theorem fullId_name_inj (p : String) :
    Function.Injective (fun n => p ++ ":" ++ n) := by
  intro n1 n2 h
  have hd := congrArg String.data h
  simp [String.data_append] at hd
  exact String.ext hd

/-- With colon-free prefixes, a full id determines prefix and name. -/
theorem fullId_decompose (p n p2 n2 : String)
    (hp : ∀ ch ∈ p.data, ¬ch = ':') (hp2 : ∀ ch ∈ p2.data, ¬ch = ':')
    (h : p ++ ":" ++ n = p2 ++ ":" ++ n2) : p = p2 ∧ n = n2 := by
  have hd := congrArg String.data h
  have hcol : (":" : String).data = [':'] := rfl
  rw [String.data_append, String.data_append, String.data_append,
    String.data_append, hcol, List.append_assoc, List.append_assoc,
    List.singleton_append, List.singleton_append] at hd
  have hpfx : p.data = p2.data := by
    have ht := congrArg (List.takeWhile (fun ch => ch ≠ ':')) hd
    rwa [takeWhile_no_colon p.data _ hp, takeWhile_no_colon p2.data _ hp2] at ht
  have hname : n.data = n2.data := by
    rw [hpfx] at hd
    have h5 := List.append_cancel_left hd
    injection h5
  exact ⟨String.ext hpfx, String.ext hname⟩


/-- Per-run spec: on a completed (non-aborted) run the two tables carry the
same `(prefix, name, full_id)` sequence, and every record row is well
formed (its full id is composed from its own prefix and name, and its
prefix is one of the processed collection keys). -/
theorem runCollections_spec (fuel : Nat) :
    ∀ (colls : List (String × Except PyExc CollectionDoc)) (rep : BuildReport),
      runCollections fuel colls = some (.ok rep) →
      rep.iconsRows.map (fun r => (r.pfx, r.name, r.full_id))
        = rep.ftsRows.map (fun r => (r.pfx, r.name, r.full_id))
      ∧ ∀ r ∈ rep.iconsRows,
          r.full_id = r.pfx ++ ":" ++ r.name
          ∧ r.pfx ∈ colls.map Prod.fst := by
  intro colls
  induction colls with
  | nil =>
    intro rep h
    simp only [runCollections, Option.some_inj] at h
    cases h
    exact ⟨rfl, by intro r hr; exact absurd hr (List.not_mem_nil r)⟩
  | cons pc rest ih =>
    obtain ⟨p, out⟩ := pc
    intro rep h
    simp only [runCollections] at h
    cases out with
    | error e =>
      dsimp only at h
      by_cases hcaught : caughtInBuildLoop e
      · rw [if_pos hcaught] at h
        cases hrest : runCollections fuel rest with
        | none => rw [hrest] at h; exact absurd h (by simp)
        | some x =>
          rw [hrest] at h
          cases x with
          | error e2 => dsimp only at h; simp at h
          | ok rep' =>
            dsimp only at h
            simp only [Option.some_inj] at h
            injection h with h'
            subst h'
            obtain ⟨h1, h2⟩ := ih rep' hrest
            refine ⟨h1, ?_⟩
            intro r hr
            obtain ⟨ha, hb⟩ := h2 r hr
            refine ⟨ha, ?_⟩
            simp only [List.map_cons]
            exact List.mem_cons_of_mem p hb
      · rw [if_neg hcaught] at h; simp at h
    | ok doc =>
      dsimp only at h
      cases hpi : processIcons fuel p doc.license (doc.icons.map Prod.fst)
          doc.icons with
      | none => rw [hpi] at h; exact absurd h (by simp)
      | some res =>
        obtain ⟨tblF, irs, frs⟩ := res
        rw [hpi] at h
        dsimp only at h
        cases hrest : runCollections fuel rest with
        | none => rw [hrest] at h; exact absurd h (by simp)
        | some x =>
          rw [hrest] at h
          cases x with
          | error e2 => dsimp only at h; simp at h
          | ok rep' =>
            dsimp only at h
            simp only [Option.some_inj] at h
            injection h with h'
            subst h'
            obtain ⟨h1, h2⟩ := ih rep' hrest
            obtain ⟨hb1, hb2⟩ := processIcons_spec fuel p doc.license
              (doc.icons.map Prod.fst) doc.icons tblF irs frs hpi
            constructor
            · simp only [List.map_append, hb1, hb2, h1]
            · intro r hr
              rcases List.mem_append.mp hr with hr | hr
              · obtain ⟨ha, hfid⟩ := processIcons_row_facts fuel p doc.license
                  (doc.icons.map Prod.fst) doc.icons tblF irs frs hpi r hr
                exact ⟨by rw [hfid, ha], by simp [ha]⟩
              · obtain ⟨ha, hb⟩ := h2 r hr
                refine ⟨ha, ?_⟩
                simp only [List.map_cons]
                exact List.mem_cons_of_mem p hb


/-- On a completed run with distinct colon-free collection keys and
duplicate-free icon names, the emitted full ids are pairwise distinct. -/
theorem runCollections_fullIds_nodup (fuel : Nat) :
    ∀ (colls : List (String × Except PyExc CollectionDoc)) (rep : BuildReport),
      runCollections fuel colls = some (.ok rep) →
      (colls.map Prod.fst).Nodup →
      (∀ pr ∈ colls.map Prod.fst, ∀ ch ∈ pr.data, ¬ch = ':') →
      (∀ pc ∈ colls, ∀ doc : CollectionDoc, pc.2 = .ok doc →
        (doc.icons.map Prod.fst).Nodup) →
      (rep.iconsRows.map (fun r => r.full_id)).Nodup := by
  intro colls
  induction colls with
  | nil =>
    intro rep h _ _ _
    simp only [runCollections, Option.some_inj] at h
    cases h
    exact List.nodup_nil
  | cons pc rest ih =>
    obtain ⟨p, out⟩ := pc
    intro rep h hkeys hnc hnames
    have hkeys' : (rest.map Prod.fst).Nodup := by
      simp only [List.map_cons] at hkeys
      exact hkeys.of_cons
    have hpnotin : p ∉ rest.map Prod.fst := by
      simp only [List.map_cons] at hkeys
      exact (List.nodup_cons.mp hkeys).1
    have hnc' : ∀ pr ∈ rest.map Prod.fst, ∀ ch ∈ pr.data, ¬ch = ':' := by
      intro pr hpr
      exact hnc pr (by simp only [List.map_cons]; exact List.mem_cons_of_mem p hpr)
    have hnames' : ∀ pc ∈ rest, ∀ doc : CollectionDoc, pc.2 = .ok doc →
        (doc.icons.map Prod.fst).Nodup := by
      intro pc hpc
      exact hnames pc (List.mem_cons_of_mem _ hpc)
    simp only [runCollections] at h
    cases out with
    | error e =>
      dsimp only at h
      by_cases hcaught : caughtInBuildLoop e
      · rw [if_pos hcaught] at h
        cases hrest : runCollections fuel rest with
        | none => rw [hrest] at h; exact absurd h (by simp)
        | some x =>
          rw [hrest] at h
          cases x with
          | error e2 => dsimp only at h; simp at h
          | ok rep' =>
            dsimp only at h
            simp only [Option.some_inj] at h
            injection h with h'
            subst h'
            exact ih rep' hrest hkeys' hnc' hnames'
      · rw [if_neg hcaught] at h; simp at h
    | ok doc =>
      dsimp only at h
      cases hpi : processIcons fuel p doc.license (doc.icons.map Prod.fst)
          doc.icons with
      | none => rw [hpi] at h; exact absurd h (by simp)
      | some res =>
        obtain ⟨tblF, irs, frs⟩ := res
        rw [hpi] at h
        dsimp only at h
        cases hrest : runCollections fuel rest with
        | none => rw [hrest] at h; exact absurd h (by simp)
        | some x =>
          rw [hrest] at h
          cases x with
          | error e2 => dsimp only at h; simp at h
          | ok rep' =>
            dsimp only at h
            simp only [Option.some_inj] at h
            injection h with h'
            subst h'
            have hblock := processIcons_fullIds fuel p doc.license
              (doc.icons.map Prod.fst) doc.icons tblF irs frs hpi
            have hnodblock : (irs.map (fun r => r.full_id)).Nodup := by
              rw [hblock]
              exact (hnames (p, .ok doc) (List.mem_cons_self _ _) doc rfl).map
                (fullId_name_inj p)
            have hnodrest := ih rep' hrest hkeys' hnc' hnames'
            have hfacts := (runCollections_spec fuel rest rep' hrest).2
            simp only [List.map_append]
            refine hnodblock.append hnodrest ?_
            intro a ha har
            rw [hblock] at ha
            rcases List.mem_map.mp ha with ⟨n, _, hn⟩
            rcases List.mem_map.mp har with ⟨r, hr, hrid⟩
            obtain ⟨hfid, hpfx⟩ := hfacts r hr
            have hcomp : p ++ ":" ++ n = r.pfx ++ ":" ++ r.name := by
              rw [hn, ← hrid, hfid]
            have hpr := (fullId_decompose p n r.pfx r.name
              (hnc p (by simp) ) (hnc' r.pfx hpfx) hcomp).1
            rw [hpr] at hpnotin
            exact hpnotin hpfx

/-- Filtering on a projected field has the length of the projected count. -/
theorem filter_field_length_eq_count {α β : Type} [DecidableEq β]
    (f : α → β) (b : β) :
    ∀ l : List α, (l.filter (fun a => f a = b)).length = (l.map f).count b := by
  intro l
  induction l with
  | nil => rfl
  | cons x xs ih =>
    by_cases hx : f x = b
    · simp [List.filter_cons, hx, List.count_cons, ih]
    · simp [List.filter_cons, hx, List.count_cons, ih]

/-- Keyed insertion permutes consing. -/
theorem insertByKey_perm {β : Type} (x : String × β) :
    ∀ l : List (String × β), List.Perm (insertByKey x l) (x :: l) := by
  intro l
  induction l with
  | nil => exact List.Perm.refl _
  | cons y ys ih =>
    by_cases h : x.1 < y.1
    · rw [insertByKey, if_pos h]
    · rw [insertByKey, if_neg h]
      exact (ih.cons y).trans (List.Perm.swap x y ys)

/-- The key sort is a permutation of its input. -/
theorem sortByKey_perm {β : Type} :
    ∀ l : List (String × β), List.Perm (sortByKey l) l := by
  intro l
  induction l with
  | nil => exact List.Perm.refl _
  | cons x xs ih => exact (insertByKey_perm x (sortByKey xs)).trans (ih.cons x)


/-- C3: after any completed index build, the record table and the full-text
table have equal row counts and identical `(prefix, name, full_id)`
sequences, and every emitted full id selects exactly one row in each table,
with matching prefix and name — provided collection keys are distinct and
colon-free and icon names are unique per collection, as they are for
Python dict inputs. -/
theorem build_index_tables_in_lockstep (fuel : Nat)
    (colls : List (String × Except PyExc CollectionDoc)) (rep : BuildReport)
    (hrun : build_index fuel colls = some (.ok rep))
    (hkeys : (colls.map Prod.fst).Nodup)
    (hnc : ∀ pr ∈ colls.map Prod.fst, ∀ ch ∈ pr.data, ¬ch = ':')
    (hnames : ∀ pc ∈ colls, ∀ doc : CollectionDoc, pc.2 = .ok doc →
      (doc.icons.map Prod.fst).Nodup) :
    rep.iconsRows.length = rep.ftsRows.length
  ∧ rep.iconsRows.map (fun r => (r.pfx, r.name, r.full_id))
      = rep.ftsRows.map (fun r => (r.pfx, r.name, r.full_id))
  ∧ ∀ r ∈ rep.iconsRows,
      (rep.iconsRows.filter (fun s => s.full_id = r.full_id)).length = 1
    ∧ (rep.ftsRows.filter (fun s => s.full_id = r.full_id)).length = 1
    ∧ ∀ s ∈ rep.ftsRows, s.full_id = r.full_id →
        s.pfx = r.pfx ∧ s.name = r.name := by
  unfold build_index at hrun
  have hperm := sortByKey_perm colls
  have hkeys' : ((sortByKey colls).map Prod.fst).Nodup :=
    ((hperm.map Prod.fst).symm).nodup hkeys
  have hnc' : ∀ pr ∈ (sortByKey colls).map Prod.fst,
      ∀ ch ∈ pr.data, ¬ch = ':' := by
    intro pr hpr
    exact hnc pr ((hperm.map Prod.fst).mem_iff.mp hpr)
  have hnames' : ∀ pc ∈ sortByKey colls, ∀ doc : CollectionDoc,
      pc.2 = .ok doc → (doc.icons.map Prod.fst).Nodup := by
    intro pc hpc
    exact hnames pc (hperm.mem_iff.mp hpc)
  obtain ⟨htriple, hwf⟩ := runCollections_spec fuel (sortByKey colls) rep hrun
  have hnod := runCollections_fullIds_nodup fuel (sortByKey colls) rep hrun
    hkeys' hnc' hnames'
  have hfts_ids : rep.ftsRows.map (fun r => r.full_id)
      = rep.iconsRows.map (fun r => r.full_id) := by
    have h2 := congrArg
      (List.map (fun t : String × String × String => t.2.2)) htriple
    simpa [List.map_map, Function.comp] using h2.symm
  refine ⟨?_, htriple, ?_⟩
  · have := congrArg List.length htriple
    simpa [List.length_map] using this
  · intro r hr
    have hmemid : r.full_id ∈ rep.iconsRows.map (fun s => s.full_id) :=
      List.mem_map_of_mem _ hr
    have hcount1 : (rep.iconsRows.map (fun s => s.full_id)).count r.full_id
        = 1 := List.count_eq_one_of_mem hnod hmemid
    refine ⟨?_, ?_, ?_⟩
    · rw [filter_field_length_eq_count (fun s : IconRow => s.full_id)
        r.full_id rep.iconsRows]
      exact hcount1
    · rw [filter_field_length_eq_count (fun s : FtsRow => s.full_id)
        r.full_id rep.ftsRows, hfts_ids]
      exact hcount1
    · intro s hs hsid
      have hstriple : (s.pfx, s.name, s.full_id)
          ∈ rep.iconsRows.map (fun t => (t.pfx, t.name, t.full_id)) := by
        rw [htriple]
        exact List.mem_map_of_mem _ hs
      rcases List.mem_map.mp hstriple with ⟨r2, hr2, hr2eq⟩
      have hinj := List.inj_on_of_nodup_map hnod
      have hr2id : r2.full_id = r.full_id := by
        have := congrArg (fun t : String × String × String => t.2.2) hr2eq
        simp at this
        rw [this, hsid]
      have hr2r : r2 = r := hinj hr2 hr hr2id
      subst hr2r
      have h1 := congrArg Prod.fst hr2eq
      have h2 := congrArg (fun t : String × String × String => t.2.1) hr2eq
      simp at h1 h2
      exact ⟨h1.symm, h2.symm⟩

/-- Concrete completed two-collection build exercising the lockstep
invariant. -/
theorem build_index_tables_in_lockstep_witness :
    (BuildReport.mk
      [⟨"a", "x", "a:x", "", "L"⟩, ⟨"b", "y", "b:y", "", "M"⟩]
      [⟨"a", "x", "a:x", "x "⟩, ⟨"b", "y", "b:y", "y "⟩]
      []).iconsRows.length
    = (BuildReport.mk
      [⟨"a", "x", "a:x", "", "L"⟩, ⟨"b", "y", "b:y", "", "M"⟩]
      [⟨"a", "x", "a:x", "x "⟩, ⟨"b", "y", "b:y", "y "⟩]
      []).ftsRows.length := by
  have h := build_index_tables_in_lockstep 3
    [("a", .ok ⟨[("x", ⟨none, none⟩)], "L"⟩),
     ("b", .ok ⟨[("y", ⟨none, none⟩)], "M"⟩)]
    (BuildReport.mk
      [⟨"a", "x", "a:x", "", "L"⟩, ⟨"b", "y", "b:y", "", "M"⟩]
      [⟨"a", "x", "a:x", "x "⟩, ⟨"b", "y", "b:y", "y "⟩]
      [])
    (by with_unfolding_all rfl)
    (by decide)
    (by decide)
    (by
      intro pc hpc doc hdoc
      rcases List.mem_cons.mp hpc with h1 | h1
      · subst h1
        injection hdoc with h2
        subst h2
        decide
      · rcases List.mem_cons.mp h1 with h2 | h2
        · subst h2
          injection hdoc with h3
          subst h3
          decide
        · exact absurd h2 (List.not_mem_nil pc))
  exact h.1

end Iconify
